import Mathlib

/-!
# Game of Life engine — verification of the specification against the code

Shallow embedding of the cellular-automaton core shared by the variants in
`hrosicka/game-of-life-python`: `game-of-life-blinker.py`, `game-of-life-gun.py`,
`game-of-life-r-pentomino.py`, `game-of-life-lwss.py`, and the rest.  Every
variant keeps a `height × width` NumPy `int8` grid and a generation counter,
counts neighbours with `scipy.signal.convolve2d` against the kernel
`[[1,1,1],[1,0,1],[1,1,1]]` (mode `'same'`, boundary `'wrap'` or `'fill'`),
and applies the B3/S23 rule through the masks
`(grid == 1) & ((neighbors == 2) | (neighbors == 3))` and
`(grid == 0) & (neighbors == 3)`.

Grids are embedded as total functions `Nat → Nat → Nat`; only the entries with
`r < height`, `c < width` model the NumPy array's cells.  Cell values are `Nat`
(the `int8` values that actually occur are 0, 1 and neighbour counts ≤ 8, so no
wrap-around modelling is needed).
-/

namespace GameOfLife

/-- The two `convolve2d` boundary options used across the variants:
`fill` (`boundary='fill', fillvalue=0`, the clamped mode of
`game-of-life-gun.py` / `game-of-life-beacon.py`) and `wrap`
(`boundary='wrap'`, the toroidal mode of `game-of-life-blinker.py`,
`game-of-life-glider.py`, `game-of-life-toad.py`, `game-of-life-pulsar.py`,
`game-of-life-lwss.py`); `game-of-life-r-pentomino.py` selects either through
`GameConfig.boundary`. -/
inductive BoundaryMode
  | fill
  | wrap
deriving DecidableEq, Repr

/-- The state every variant keeps: `self.height`, `self.width`, the boundary
option passed to `convolve2d`, `self.grid` and `self.generation`. -/
structure Engine where
  height : Nat
  width : Nat
  boundary : BoundaryMode
  grid : Nat → Nat → Nat
  generation : Nat

/-- Reading the grid at a (possibly out-of-range) integer coordinate, the way
`convolve2d` resolves it: with `boundary='fill', fillvalue=0` an out-of-range
coordinate contributes 0; with `boundary='wrap'` the row and column are taken
modulo the dimensions. -/
def cellAt (e : Engine) (r c : Int) : Nat :=
  match e.boundary with
  | .fill =>
      if 0 ≤ r ∧ r < (e.height : Int) ∧ 0 ≤ c ∧ c < (e.width : Int) then
        e.grid r.toNat c.toNat
      else 0
  | .wrap => e.grid (r % (e.height : Int)).toNat (c % (e.width : Int)).toNat

/-- The 3×3 convolution window offsets, centre included. -/
def convWindow : List (Int × Int) :=
  [(-1, -1), (-1, 0), (-1, 1), (0, -1), (0, 0), (0, 1), (1, -1), (1, 0), (1, 1)]

/-- The kernel `[[1,1,1],[1,0,1],[1,1,1]]` read at window offset `d`
(offset `(0,0)` is the centre entry `0`, every other entry is `1`). -/
def kernelWeight (d : Int × Int) : Nat :=
  if d.1 = 0 ∧ d.2 = 0 then 0 else 1

/-- Embeds `_get_live_neighbor_count` (and `_get_neighbor_counts` /
the `step` convolutions): the entry at `(r, c)` of
`convolve2d(self.grid, kernel, mode='same', boundary=...)`, i.e. the sum over
the 3×3 window of kernel weight times the grid value at the offset coordinate,
resolved by the boundary mode.  (The kernel is symmetric, so convolution and
correlation agree.) -/
def _get_live_neighbor_count (e : Engine) (r c : Nat) : Nat :=
  (convWindow.map
    (fun d => kernelWeight d * cellAt e ((r : Int) + d.1) ((c : Int) + d.2))).sum

/-- The 8 Moore-neighbourhood offsets (the window without its centre). -/
def mooreOffsets : List (Int × Int) :=
  [(-1, -1), (-1, 0), (-1, 1), (0, -1), (0, 1), (1, -1), (1, 0), (1, 1)]

/-- The specification's wording of neighbour counting: the number of the 8
Moore-neighbourhood cells that are alive (value ≥ 1), each resolved by the
boundary mode.  Used to compare the code's convolution against the spec. -/
def aliveNeighborCount (e : Engine) (r c : Nat) : Nat :=
  (mooreOffsets.filter
    (fun d => 0 < cellAt e ((r : Int) + d.1) ((c : Int) + d.2))).length

/-- Embeds the body of `next_generation` / `step` at one cell:
`survival = (grid == 1) & ((neighbors == 2) | (neighbors == 3))`,
`birth = (grid == 0) & (neighbors == 3)`,
new value `(survival | birth).astype(np.int8)`. -/
def nextCell (e : Engine) (r c : Nat) : Nat :=
  let n := _get_live_neighbor_count e r c
  if (e.grid r c = 1 ∧ (n = 2 ∨ n = 3)) ∨ (e.grid r c = 0 ∧ n = 3) then 1 else 0

/-- Embeds `next_generation` (identically `step`): the whole grid is replaced
by the masks computed from the pre-step grid, then `self.generation += 1`. -/
def next_generation (e : Engine) : Engine :=
  { e with grid := fun r c => nextCell e r c, generation := e.generation + 1 }

/-- A single point update of a grid function, embedding `self.grid[r, c] = 1`
(with an arbitrary value for reuse). -/
def setCell (g : Nat → Nat → Nat) (r c v : Nat) : Nat → Nat → Nat :=
  fun x y => if x = r ∧ y = c then v else g x y

/-- Embeds the seeding loop of `seed_pattern` / `set_initial_pattern` /
`set_gosper_glider_gun` / `set_lwss_pattern`:
`for r, c in pattern: target = (r + row_offset, c + col_offset);`
`if 0 <= target_r < height and 0 <= target_c < width: grid[target] = 1`. -/
def seedCells (h w : Nat) (g : Nat → Nat → Nat) :
    List (Int × Int) → Int → Int → (Nat → Nat → Nat)
  | [], _, _ => g
  | p :: rest, rowOffset, colOffset =>
      let tr := p.1 + rowOffset
      let tc := p.2 + colOffset
      if 0 ≤ tr ∧ tr < (h : Int) ∧ 0 ≤ tc ∧ tc < (w : Int) then
        seedCells h w (setCell g tr.toNat tc.toNat 1) rest rowOffset colOffset
      else
        seedCells h w g rest rowOffset colOffset

/-- Embeds `seed_pattern(pattern, row_offset, col_offset)` (the offset-free
`set_initial_pattern` is the special case with both offsets 0). -/
def seed_pattern (e : Engine) (pattern : List (Int × Int))
    (rowOffset colOffset : Int) : Engine :=
  { e with grid := seedCells e.height e.width e.grid pattern rowOffset colOffset }

/-- The failure `np.zeros((height, width))` raises for a negative size:
`ValueError: negative dimensions are not allowed`.  No variant performs any
dimension validation of its own, and no `InvalidDimension` error exists in the
code. -/
inductive NumpyError
  | negativeDimensions
deriving DecidableEq, Repr

/-- Embeds `__init__`: the dimensions are taken from the configuration without
validation, `self.grid = np.zeros((self.height, self.width), dtype=np.int8)`
and `self.generation = 0`.  `np.zeros` raises only for a negative size (a zero
size yields an empty array), so construction fails exactly when `height < 0`
or `width < 0`, and otherwise yields the all-dead grid at generation 0. -/
def init (height width : Int) (b : BoundaryMode) : Except NumpyError Engine :=
  if height < 0 ∨ width < 0 then
    .error .negativeDimensions
  else
    .ok { height := height.toNat, width := width.toNat, boundary := b,
          grid := fun _ _ => 0, generation := 0 }

/-- Embeds a call of `self._get_live_neighbor_count()` as seen by the caller:
the method only reads `self.grid` (`convolve2d` allocates and returns a fresh
array; nothing is assigned to `self`), so the call returns the computed counts
alongside the unchanged engine state. -/
def neighborCountsCall (e : Engine) : (Nat → Nat → Nat) × Engine :=
  (fun r c => _get_live_neighbor_count e r c, e)

/-- A binary grid: every cell value is 0 or 1.  This holds for every reachable
state of the binary variants (all-zero at construction, seeding writes 1,
`next_generation` writes 0 or 1). -/
def Binary (e : Engine) : Prop :=
  ∀ r c, e.grid r c = 0 ∨ e.grid r c = 1

/-- Modelled from the spec: `LWSSAgingSimulation.next_generation`.  The
repository's tests (`test_game_of_life_extra_coverage2.py`) load a class
`LWSSAgingSimulation` from `game-of-life-lwss.py`, but that class is absent
from the corpus copy of the file (which holds the binary `LWSSWideSimulation`
instead), so the aging step is modelled from the spec's words: "a surviving
cell's value becomes `previous value + 1`; a newly born cell's value becomes
1; a dying or remaining-dead cell's value becomes 0", with "alive" defined as
value > 0, survival on 2 or 3 live neighbours, birth on exactly 3, and
neighbours counted as cells with value ≥ 1 regardless of age. -/
def agingNextGeneration (e : Engine) : Engine :=
  { e with
    grid := fun r c =>
      let n := aliveNeighborCount e r c
      if 0 < e.grid r c then
        if n = 2 ∨ n = 3 then e.grid r c + 1 else 0
      else
        if n = 3 then 1 else 0,
    generation := e.generation + 1 }

/-! ### Grids and engines used to instantiate the theorems -/

/-- A horizontal blinker: live cells exactly at row `r`, columns `c`, `c+1`,
`c+2`; every other cell dead. -/
def blinkerH (r c : Nat) : Nat → Nat → Nat := fun x y =>
  if x = r ∧ (y = c ∨ y = c + 1 ∨ y = c + 2) then 1 else 0

/-- A vertical blinker: live cells exactly at column `c+1`, rows `r-1`, `r`,
`r+1`; every other cell dead. -/
def blinkerV (r c : Nat) : Nat → Nat → Nat := fun x y =>
  if (x + 1 = r ∨ x = r ∨ x = r + 1) ∧ y = c + 1 then 1 else 0

/-- The horizontal blinker centred at the origin, on ℤ². -/
def hInd0 (a b : Int) : Nat := if a = 0 ∧ (b = 0 ∨ b = 1 ∨ b = 2) then 1 else 0

/-- The vertical blinker centred at the origin, on ℤ². -/
def vInd0 (a b : Int) : Nat := if (a = -1 ∨ a = 0 ∨ a = 1) ∧ b = 1 then 1 else 0

/-- An `N × N` grid whose single live cell is the corner `(0, 0)`. -/
def cornerGrid : Nat → Nat → Nat := fun x y => if x = 0 ∧ y = 0 then 1 else 0

/-- A 6×7 toroidal engine holding a horizontal blinker at row 3,
columns 2..4 (the shape of the `game-of-life-blinker.py` seed). -/
def blinkDemo : Engine :=
  { height := 6, width := 7, boundary := .wrap, grid := blinkerH 3 2, generation := 0 }

/-- An aging grid: age 2 at `(3, 3)`, age 1 at `(3, 2)` and `(3, 4)`
(the scenario of `test_lwss_next_generation_birth_and_survival_behavior`). -/
def agingDemoGrid : Nat → Nat → Nat := fun x y =>
  if x = 3 ∧ y = 3 then 2 else if x = 3 ∧ (y = 2 ∨ y = 4) then 1 else 0

/-- A 7×7 toroidal aging engine at generation 5 holding `agingDemoGrid`. -/
def agingDemo : Engine :=
  { height := 7, width := 7, boundary := .wrap, grid := agingDemoGrid, generation := 5 }

/-! ## Helper lemmas -/

/-- The convolution against `[[1,1,1],[1,0,1],[1,1,1]]` is the plain sum of
the grid over the 8 Moore offsets (the centre weight 0 removes the centre
term, the other weights are 1). -/
theorem ncount_eq_moore_sum (e : Engine) (r c : Nat) :
    _get_live_neighbor_count e r c =
      (mooreOffsets.map (fun d => cellAt e ((r : Int) + d.1) ((c : Int) + d.2))).sum := by
  simp [_get_live_neighbor_count, convWindow, mooreOffsets, kernelWeight]

/-- On a binary grid, every boundary-resolved read is 0 or 1. -/
theorem cellAt_le_one (e : Engine) (hb : Binary e) (r c : Int) :
    cellAt e r c ≤ 1 := by
  cases hB : e.boundary <;> simp only [cellAt, hB]
  · split
    · rcases hb (r.toNat) (c.toNat) with h | h <;> simp [h]
    · exact Nat.zero_le 1
  · rcases hb ((r % (e.height : Int)).toNat) ((c % (e.width : Int)).toNat) with h | h <;>
      simp [h]

/-- A sum of 0/1 values is the number of positive entries. -/
theorem sum_eq_count_pos (l : List Nat) (h : ∀ v ∈ l, v ≤ 1) :
    l.sum = (l.filter (fun v => decide (0 < v))).length := by
  induction l with
  | nil => simp
  | cons x xs ih =>
      have hx : x ≤ 1 := h x (List.mem_cons_self x xs)
      have ihh := ih (fun v hv => h v (List.mem_cons_of_mem _ hv))
      interval_cases x <;> simp [List.filter, ihh]
      omega

/-- A sum of 0/1 values is at most the number of entries. -/
theorem sum_le_length (l : List Nat) (h : ∀ v ∈ l, v ≤ 1) : l.sum ≤ l.length := by
  induction l with
  | nil => simp
  | cons x xs ih =>
      have hx : x ≤ 1 := h x (List.mem_cons_self x xs)
      have ihh := ih (fun v hv => h v (List.mem_cons_of_mem _ hv))
      simp only [List.sum_cons, List.length_cons]
      omega

/-- On a binary grid the code's convolution equals the spec's count of alive
Moore neighbours. -/
theorem ncount_eq_aliveCount (e : Engine) (hb : Binary e) (r c : Nat) :
    _get_live_neighbor_count e r c = aliveNeighborCount e r c := by
  rw [ncount_eq_moore_sum, aliveNeighborCount,
      sum_eq_count_pos _ (fun v hv => by
        obtain ⟨d, _, rfl⟩ := List.mem_map.mp hv
        exact cellAt_le_one e hb _ _)]
  rw [List.filter_map, List.length_map]
  rfl

/-- On a binary grid every neighbour count is at most 8. -/
theorem ncount_le_eight (e : Engine) (hb : Binary e) (r c : Nat) :
    _get_live_neighbor_count e r c ≤ 8 := by
  rw [ncount_eq_moore_sum]
  have h := sum_le_length
    (mooreOffsets.map (fun d => cellAt e ((r : Int) + d.1) ((c : Int) + d.2)))
    (fun v hv => by
      obtain ⟨d, _, rfl⟩ := List.mem_map.mp hv
      exact cellAt_le_one e hb _ _)
  simpa [mooreOffsets] using h

/-- A seeded cell is either untouched or set to 1. -/
theorem seedCells_eq_or_one (h w : Nat) (g : Nat → Nat → Nat)
    (pat : List (Int × Int)) (rowOffset colOffset : Int) (x y : Nat) :
    seedCells h w g pat rowOffset colOffset x y = g x y ∨
      seedCells h w g pat rowOffset colOffset x y = 1 := by
  induction pat generalizing g with
  | nil => exact Or.inl rfl
  | cons p rest ih =>
      simp only [seedCells]
      split
      · rcases ih (setCell g (p.1 + rowOffset).toNat (p.2 + colOffset).toNat 1) with h1 | h1
        · rw [h1]
          unfold setCell
          split
          · exact Or.inr rfl
          · exact Or.inl rfl
        · exact Or.inr h1
      · exact ih g

/-- Cells that are not the in-bounds target of any pattern element are left
unchanged by the seeding loop (in particular, out-of-bounds coordinates are
silently ignored with no side effect). -/
theorem seedCells_frame (h w : Nat) (g : Nat → Nat → Nat)
    (pat : List (Int × Int)) (rowOffset colOffset : Int) (x y : Nat)
    (hmiss : ∀ p ∈ pat,
      (0 ≤ p.1 + rowOffset ∧ p.1 + rowOffset < (h : Int) ∧
       0 ≤ p.2 + colOffset ∧ p.2 + colOffset < (w : Int)) →
      ¬((x : Int) = p.1 + rowOffset ∧ (y : Int) = p.2 + colOffset)) :
    seedCells h w g pat rowOffset colOffset x y = g x y := by
  induction pat generalizing g with
  | nil => rfl
  | cons p rest ih =>
      simp only [seedCells]
      split
      case isTrue hin =>
        rw [ih _ (fun q hq => hmiss q (List.mem_cons_of_mem _ hq))]
        unfold setCell
        have hp := hmiss p (List.mem_cons_self p rest) hin
        split
        case isTrue hxy => exact absurd (by omega) hp
        case isFalse _ => rfl
      case isFalse _ =>
        exact ih _ (fun q hq => hmiss q (List.mem_cons_of_mem _ hq))

/-- Every in-bounds target of the pattern ends up set to 1. -/
theorem seedCells_hit (h w : Nat) (g : Nat → Nat → Nat)
    (pat : List (Int × Int)) (rowOffset colOffset : Int) (p : Int × Int)
    (hp : p ∈ pat)
    (hin : 0 ≤ p.1 + rowOffset ∧ p.1 + rowOffset < (h : Int) ∧
           0 ≤ p.2 + colOffset ∧ p.2 + colOffset < (w : Int)) :
    seedCells h w g pat rowOffset colOffset
      (p.1 + rowOffset).toNat (p.2 + colOffset).toNat = 1 := by
  induction pat generalizing g with
  | nil => exact absurd hp (List.not_mem_nil p)
  | cons q rest ih =>
      rcases List.mem_cons.mp hp with rfl | hmem
      · simp only [seedCells, if_pos hin]
        rcases seedCells_eq_or_one h w
            (setCell g (p.1 + rowOffset).toNat (p.2 + colOffset).toNat 1)
            rest rowOffset colOffset
            (p.1 + rowOffset).toNat (p.2 + colOffset).toNat with h1 | h1
        · rw [h1]; unfold setCell; rw [if_pos ⟨rfl, rfl⟩]
        · exact h1
      · simp only [seedCells]
        split
        · exact ih _ hmem
        · exact ih _ hmem

/-- Halo reads of an interior-supported grid.  If the grid agrees in range
with an integer indicator `ind` whose support avoids the outermost rows and
columns, then `cellAt` agrees with `ind` on the whole one-cell halo
`[-1, height] × [-1, width]`, under either boundary mode: the clamped zeros
and the wrapped-around border cells are all outside the support. -/
theorem cellAt_halo (e : Engine) (ind : Int → Int → Nat)
    (hgrid : ∀ x y : Nat, x < e.height → y < e.width →
      e.grid x y = ind (x : Int) (y : Int))
    (hsupp : ∀ x y : Int, ind x y ≠ 0 →
      1 ≤ x ∧ x + 2 ≤ (e.height : Int) ∧ 1 ≤ y ∧ y + 2 ≤ (e.width : Int))
    (hh : 0 < e.height) (hw : 0 < e.width)
    (x y : Int) (hx1 : -1 ≤ x) (hx2 : x ≤ (e.height : Int))
    (hy1 : -1 ≤ y) (hy2 : y ≤ (e.width : Int)) :
    cellAt e x y = ind x y := by
  have hzero : ∀ a b : Int,
      (a < 1 ∨ (e.height : Int) < a + 2 ∨ b < 1 ∨ (e.width : Int) < b + 2) →
      ind a b = 0 := by
    intro a b hbad
    by_contra hz
    have := hsupp a b hz
    omega
  cases hB : e.boundary <;> simp only [cellAt, hB]
  · split
    case isTrue hin =>
      rw [hgrid _ _ (by omega) (by omega)]
      congr 1 <;> omega
    case isFalse hout =>
      rw [hzero x y (by omega)]
  · have hxm0 : 0 ≤ x % (e.height : Int) := Int.emod_nonneg x (by omega)
    have hxm1 : x % (e.height : Int) < (e.height : Int) :=
      Int.emod_lt_of_pos x (by omega)
    have hym0 : 0 ≤ y % (e.width : Int) := Int.emod_nonneg y (by omega)
    have hym1 : y % (e.width : Int) < (e.width : Int) :=
      Int.emod_lt_of_pos y (by omega)
    rw [hgrid _ _ (by omega) (by omega)]
    have hxcast : (((x % (e.height : Int)).toNat : Nat) : Int) = x % (e.height : Int) := by
      omega
    have hycast : (((y % (e.width : Int)).toNat : Nat) : Int) = y % (e.width : Int) := by
      omega
    rw [hxcast, hycast]
    -- identify the wrapped coordinate on the halo
    have hxcases : x % (e.height : Int) = x ∨
        (x = -1 ∧ x % (e.height : Int) = (e.height : Int) - 1) ∨
        (x = (e.height : Int) ∧ x % (e.height : Int) = 0) := by
      rcases lt_or_le x 0 with hneg | hpos
      · have hx' : x = -1 := by omega
        subst hx'
        refine Or.inr (Or.inl ⟨rfl, ?_⟩)
        have h1 : ((-1 : Int) + 1 * (e.height : Int)) % (e.height : Int) =
            (-1 : Int) % (e.height : Int) := Int.add_mul_emod_self
        have h2 : ((-1 : Int) + 1 * (e.height : Int)) = (e.height : Int) - 1 := by ring
        rw [h2] at h1
        rw [← h1]
        exact Int.emod_eq_of_lt (by omega) (by omega)
      · rcases lt_or_le x (e.height : Int) with hlt | hge
        · exact Or.inl (Int.emod_eq_of_lt hpos hlt)
        · have hx' : x = (e.height : Int) := by omega
          subst hx'
          exact Or.inr (Or.inr ⟨rfl, Int.emod_self⟩)
    have hycases : y % (e.width : Int) = y ∨
        (y = -1 ∧ y % (e.width : Int) = (e.width : Int) - 1) ∨
        (y = (e.width : Int) ∧ y % (e.width : Int) = 0) := by
      rcases lt_or_le y 0 with hneg | hpos
      · have hy' : y = -1 := by omega
        subst hy'
        refine Or.inr (Or.inl ⟨rfl, ?_⟩)
        have h1 : ((-1 : Int) + 1 * (e.width : Int)) % (e.width : Int) =
            (-1 : Int) % (e.width : Int) := Int.add_mul_emod_self
        have h2 : ((-1 : Int) + 1 * (e.width : Int)) = (e.width : Int) - 1 := by ring
        rw [h2] at h1
        rw [← h1]
        exact Int.emod_eq_of_lt (by omega) (by omega)
      · rcases lt_or_le y (e.width : Int) with hlt | hge
        · exact Or.inl (Int.emod_eq_of_lt hpos hlt)
        · have hy' : y = (e.width : Int) := by omega
          subst hy'
          exact Or.inr (Or.inr ⟨rfl, Int.emod_self⟩)
    rcases hxcases with hxe | ⟨hxv, hxe⟩ | ⟨hxv, hxe⟩ <;>
      rcases hycases with hye | ⟨hyv, hye⟩ | ⟨hyv, hye⟩ <;>
      rw [hxe, hye]
    all_goals rw [hzero _ _ (by omega), hzero _ _ (by omega)]

/-- Neighbour counts of an interior-supported grid: the convolution evaluates
to the Moore-offset sum of the indicator, under either boundary mode. -/
theorem ncount_halo (e : Engine) (ind : Int → Int → Nat)
    (hgrid : ∀ x y : Nat, x < e.height → y < e.width →
      e.grid x y = ind (x : Int) (y : Int))
    (hsupp : ∀ x y : Int, ind x y ≠ 0 →
      1 ≤ x ∧ x + 2 ≤ (e.height : Int) ∧ 1 ≤ y ∧ y + 2 ≤ (e.width : Int))
    (hh : 0 < e.height) (hw : 0 < e.width)
    (x y : Nat) (hx : x < e.height) (hy : y < e.width) :
    _get_live_neighbor_count e x y =
      (mooreOffsets.map (fun d => ind ((x : Int) + d.1) ((y : Int) + d.2))).sum := by
  rw [ncount_eq_moore_sum]
  congr 1
  apply List.map_congr_left
  intro d hd
  simp only [mooreOffsets, List.mem_cons, List.not_mem_nil, or_false] at hd
  rcases hd with rfl | rfl | rfl | rfl | rfl | rfl | rfl | rfl <;>
    exact cellAt_halo e ind hgrid hsupp hh hw _ _
      (by omega) (by omega) (by omega) (by omega)

theorem hInd0_zero (a b : Int) (h : ¬(a = 0 ∧ (b = 0 ∨ b = 1 ∨ b = 2))) :
    hInd0 a b = 0 := if_neg h

theorem vInd0_zero (a b : Int) (h : ¬((a = -1 ∨ a = 0 ∨ a = 1) ∧ b = 1)) :
    vInd0 a b = 0 := if_neg h

/-- One application of the B3/S23 rule body to the origin-centred horizontal
blinker yields the origin-centred vertical blinker, at every cell of ℤ². -/
theorem blinkerOriginStepH (X Y : Int) :
    (if (hInd0 X Y = 1 ∧
          (hInd0 (X + -1) (Y + -1) + (hInd0 (X + -1) Y + (hInd0 (X + -1) (Y + 1) +
            (hInd0 X (Y + -1) + (hInd0 X (Y + 1) + (hInd0 (X + 1) (Y + -1) +
            (hInd0 (X + 1) Y + hInd0 (X + 1) (Y + 1))))))) = 2 ∨
           hInd0 (X + -1) (Y + -1) + (hInd0 (X + -1) Y + (hInd0 (X + -1) (Y + 1) +
            (hInd0 X (Y + -1) + (hInd0 X (Y + 1) + (hInd0 (X + 1) (Y + -1) +
            (hInd0 (X + 1) Y + hInd0 (X + 1) (Y + 1))))))) = 3)) ∨
        (hInd0 X Y = 0 ∧
          hInd0 (X + -1) (Y + -1) + (hInd0 (X + -1) Y + (hInd0 (X + -1) (Y + 1) +
            (hInd0 X (Y + -1) + (hInd0 X (Y + 1) + (hInd0 (X + 1) (Y + -1) +
            (hInd0 (X + 1) Y + hInd0 (X + 1) (Y + 1))))))) = 3)
      then (1 : Nat) else 0) = vInd0 X Y := by
  by_cases hin : -1 ≤ X ∧ X ≤ 1 ∧ -1 ≤ Y ∧ Y ≤ 3
  · obtain ⟨h1, h2, h3, h4⟩ := hin
    interval_cases X <;> interval_cases Y <;> decide
  · rw [hInd0_zero X Y (by omega),
        hInd0_zero (X + -1) (Y + -1) (by omega),
        hInd0_zero (X + -1) Y (by omega),
        hInd0_zero (X + -1) (Y + 1) (by omega),
        hInd0_zero X (Y + -1) (by omega),
        hInd0_zero X (Y + 1) (by omega),
        hInd0_zero (X + 1) (Y + -1) (by omega),
        hInd0_zero (X + 1) Y (by omega),
        hInd0_zero (X + 1) (Y + 1) (by omega),
        vInd0_zero X Y (by omega)]
    decide

/-- One application of the B3/S23 rule body to the origin-centred vertical
blinker yields the origin-centred horizontal blinker, at every cell of ℤ². -/
theorem blinkerOriginStepV (X Y : Int) :
    (if (vInd0 X Y = 1 ∧
          (vInd0 (X + -1) (Y + -1) + (vInd0 (X + -1) Y + (vInd0 (X + -1) (Y + 1) +
            (vInd0 X (Y + -1) + (vInd0 X (Y + 1) + (vInd0 (X + 1) (Y + -1) +
            (vInd0 (X + 1) Y + vInd0 (X + 1) (Y + 1))))))) = 2 ∨
           vInd0 (X + -1) (Y + -1) + (vInd0 (X + -1) Y + (vInd0 (X + -1) (Y + 1) +
            (vInd0 X (Y + -1) + (vInd0 X (Y + 1) + (vInd0 (X + 1) (Y + -1) +
            (vInd0 (X + 1) Y + vInd0 (X + 1) (Y + 1))))))) = 3)) ∨
        (vInd0 X Y = 0 ∧
          vInd0 (X + -1) (Y + -1) + (vInd0 (X + -1) Y + (vInd0 (X + -1) (Y + 1) +
            (vInd0 X (Y + -1) + (vInd0 X (Y + 1) + (vInd0 (X + 1) (Y + -1) +
            (vInd0 (X + 1) Y + vInd0 (X + 1) (Y + 1))))))) = 3)
      then (1 : Nat) else 0) = hInd0 X Y := by
  by_cases hin : -2 ≤ X ∧ X ≤ 2 ∧ 0 ≤ Y ∧ Y ≤ 2
  · obtain ⟨h1, h2, h3, h4⟩ := hin
    interval_cases X <;> interval_cases Y <;> decide
  · rw [vInd0_zero X Y (by omega),
        vInd0_zero (X + -1) (Y + -1) (by omega),
        vInd0_zero (X + -1) Y (by omega),
        vInd0_zero (X + -1) (Y + 1) (by omega),
        vInd0_zero X (Y + -1) (by omega),
        vInd0_zero X (Y + 1) (by omega),
        vInd0_zero (X + 1) (Y + -1) (by omega),
        vInd0_zero (X + 1) Y (by omega),
        vInd0_zero (X + 1) (Y + 1) (by omega),
        hInd0_zero X Y (by omega)]
    decide

/-- One step of an interior horizontal blinker is the vertical blinker, under
either boundary mode. -/
theorem blinkerH_step (e : Engine) (r c : Nat)
    (hgrid : ∀ x y : Nat, x < e.height → y < e.width → e.grid x y = blinkerH r c x y)
    (hr1 : 2 ≤ r) (hr2 : r + 3 ≤ e.height) (hc1 : 2 ≤ c) (hc2 : c + 5 ≤ e.width)
    (x y : Nat) (hx : x < e.height) (hy : y < e.width) :
    (next_generation e).grid x y = blinkerV r c x y := by
  have hgrid' : ∀ a b : Nat, a < e.height → b < e.width →
      e.grid a b = hInd0 ((a : Int) - (r : Int)) ((b : Int) - (c : Int)) := by
    intro a b ha hb
    rw [hgrid a b ha hb]
    simp only [blinkerH, hInd0]
    split_ifs <;> omega
  have hsupp : ∀ a b : Int, hInd0 (a - (r : Int)) (b - (c : Int)) ≠ 0 →
      1 ≤ a ∧ a + 2 ≤ (e.height : Int) ∧ 1 ≤ b ∧ b + 2 ≤ (e.width : Int) := by
    intro a b hz
    unfold hInd0 at hz
    split at hz
    case isTrue hcond => omega
    case isFalse => exact absurd rfl hz
  show nextCell e x y = blinkerV r c x y
  simp only [nextCell]
  rw [ncount_halo e (fun a b => hInd0 (a - (r : Int)) (b - (c : Int))) hgrid' hsupp
        (by omega) (by omega) x y hx hy,
      hgrid' x y hx hy,
      show blinkerV r c x y = vInd0 ((x : Int) - (r : Int)) ((y : Int) - (c : Int)) from by
        simp only [blinkerV, vInd0]; split_ifs <;> omega]
  have hX : ∀ d : Int, (x : Int) + d - (r : Int) = (x : Int) - (r : Int) + d := by
    intro d; ring
  have hY : ∀ d : Int, (y : Int) + d - (c : Int) = (y : Int) - (c : Int) + d := by
    intro d; ring
  simp only [mooreOffsets, List.map_cons, List.map_nil, List.sum_cons, List.sum_nil,
    hX, hY, add_zero]
  exact blinkerOriginStepH ((x : Int) - (r : Int)) ((y : Int) - (c : Int))

/-- One step of an interior vertical blinker is the horizontal blinker, under
either boundary mode. -/
theorem blinkerV_step (e : Engine) (r c : Nat)
    (hgrid : ∀ x y : Nat, x < e.height → y < e.width → e.grid x y = blinkerV r c x y)
    (hr1 : 2 ≤ r) (hr2 : r + 3 ≤ e.height) (hc1 : 2 ≤ c) (hc2 : c + 5 ≤ e.width)
    (x y : Nat) (hx : x < e.height) (hy : y < e.width) :
    (next_generation e).grid x y = blinkerH r c x y := by
  have hgrid' : ∀ a b : Nat, a < e.height → b < e.width →
      e.grid a b = vInd0 ((a : Int) - (r : Int)) ((b : Int) - (c : Int)) := by
    intro a b ha hb
    rw [hgrid a b ha hb]
    simp only [blinkerV, vInd0]
    split_ifs <;> omega
  have hsupp : ∀ a b : Int, vInd0 (a - (r : Int)) (b - (c : Int)) ≠ 0 →
      1 ≤ a ∧ a + 2 ≤ (e.height : Int) ∧ 1 ≤ b ∧ b + 2 ≤ (e.width : Int) := by
    intro a b hz
    unfold vInd0 at hz
    split at hz
    case isTrue hcond => omega
    case isFalse => exact absurd rfl hz
  show nextCell e x y = blinkerH r c x y
  simp only [nextCell]
  rw [ncount_halo e (fun a b => vInd0 (a - (r : Int)) (b - (c : Int))) hgrid' hsupp
        (by omega) (by omega) x y hx hy,
      hgrid' x y hx hy,
      show blinkerH r c x y = hInd0 ((x : Int) - (r : Int)) ((y : Int) - (c : Int)) from by
        simp only [blinkerH, hInd0]; split_ifs <;> omega]
  have hX : ∀ d : Int, (x : Int) + d - (r : Int) = (x : Int) - (r : Int) + d := by
    intro d; ring
  have hY : ∀ d : Int, (y : Int) + d - (c : Int) = (y : Int) - (c : Int) + d := by
    intro d; ring
  simp only [mooreOffsets, List.map_cons, List.map_nil, List.sum_cons, List.sum_nil,
    hX, hY, add_zero]
  exact blinkerOriginStepV ((x : Int) - (r : Int)) ((y : Int) - (c : Int))

/-! ## Corner-cell boundary divergence -/

/-- Toroidal reads of the corner grid on the halo of an `(n+3) × (n+3)`
engine: the read is live exactly when both coordinates wrap to 0. -/
theorem corner_wrap_cellAt (n : Nat) (g : Nat) (a b : Int)
    (ha1 : 0 ≤ a) (ha2 : a ≤ ((n + 3 : Nat) : Int))
    (hb1 : 0 ≤ b) (hb2 : b ≤ ((n + 3 : Nat) : Int)) :
    cellAt ⟨n + 3, n + 3, .wrap, cornerGrid, g⟩ a b =
      if (a = 0 ∨ a = ((n + 3 : Nat) : Int)) ∧ (b = 0 ∨ b = ((n + 3 : Nat) : Int))
      then 1 else 0 := by
  show cornerGrid (a % ((n + 3 : Nat) : Int)).toNat (b % ((n + 3 : Nat) : Int)).toNat = _
  have hma : a % ((n + 3 : Nat) : Int) = if a = ((n + 3 : Nat) : Int) then 0 else a := by
    split
    case isTrue hp => rw [hp]; exact Int.emod_self
    case isFalse hq => exact Int.emod_eq_of_lt ha1 (by omega)
  have hmb : b % ((n + 3 : Nat) : Int) = if b = ((n + 3 : Nat) : Int) then 0 else b := by
    split
    case isTrue hp => rw [hp]; exact Int.emod_self
    case isFalse hq => exact Int.emod_eq_of_lt hb1 (by omega)
  rw [hma, hmb]
  unfold cornerGrid
  split_ifs <;> omega

/-- Clamped reads of the corner grid vanish away from `(0, 0)`. -/
theorem corner_fill_cellAt (n : Nat) (g : Nat) (a b : Int)
    (h : ¬(a = 0 ∧ b = 0)) :
    cellAt ⟨n + 3, n + 3, .fill, cornerGrid, g⟩ a b = 0 := by
  show (if _ then cornerGrid a.toNat b.toNat else 0) = 0
  split
  case isTrue hin =>
    unfold cornerGrid
    rw [if_neg (by omega)]
  case isFalse hout => rfl

/-- A halo read of the toroidal corner engine away from the wrapped corner
images is dead. -/
theorem corner_wrap_cellAt_zero (n : Nat) (g : Nat) (a b : Int)
    (ha1 : 0 ≤ a) (ha2 : a ≤ ((n + 3 : Nat) : Int))
    (hb1 : 0 ≤ b) (hb2 : b ≤ ((n + 3 : Nat) : Int))
    (hz : ¬((a = 0 ∨ a = ((n + 3 : Nat) : Int)) ∧
        (b = 0 ∨ b = ((n + 3 : Nat) : Int)))) :
    cellAt ⟨n + 3, n + 3, .wrap, cornerGrid, g⟩ a b = 0 := by
  rw [corner_wrap_cellAt n g a b ha1 ha2 hb1 hb2]
  exact if_neg hz

/-- A halo read of the toroidal corner engine at a wrapped corner image is
live. -/
theorem corner_wrap_cellAt_one (n : Nat) (g : Nat) (a b : Int)
    (ha1 : 0 ≤ a) (ha2 : a ≤ ((n + 3 : Nat) : Int))
    (hb1 : 0 ≤ b) (hb2 : b ≤ ((n + 3 : Nat) : Int))
    (ho : (a = 0 ∨ a = ((n + 3 : Nat) : Int)) ∧
        (b = 0 ∨ b = ((n + 3 : Nat) : Int))) :
    cellAt ⟨n + 3, n + 3, .wrap, cornerGrid, g⟩ a b = 1 := by
  rw [corner_wrap_cellAt n g a b ha1 ha2 hb1 hb2]
  exact if_pos ho

/-- On an `(n+3) × (n+3)` toroidal grid, the far corner sees the live
corner cell through the wrap: its neighbour count is 1. -/
theorem corner_wrap_count (n : Nat) (g : Nat) :
    _get_live_neighbor_count ⟨n + 3, n + 3, .wrap, cornerGrid, g⟩ (n + 2) (n + 2) = 1 := by
  rw [ncount_eq_moore_sum]
  simp only [mooreOffsets, List.map_cons, List.map_nil, List.sum_cons, List.sum_nil]
  rw [corner_wrap_cellAt_zero n g _ _
        (by omega) (by omega) (by omega) (by omega) (by omega),
      corner_wrap_cellAt_zero n g _ _
        (by omega) (by omega) (by omega) (by omega) (by omega),
      corner_wrap_cellAt_zero n g _ _
        (by omega) (by omega) (by omega) (by omega) (by omega),
      corner_wrap_cellAt_zero n g _ _
        (by omega) (by omega) (by omega) (by omega) (by omega),
      corner_wrap_cellAt_zero n g _ _
        (by omega) (by omega) (by omega) (by omega) (by omega),
      corner_wrap_cellAt_zero n g _ _
        (by omega) (by omega) (by omega) (by omega) (by omega),
      corner_wrap_cellAt_zero n g _ _
        (by omega) (by omega) (by omega) (by omega) (by omega),
      corner_wrap_cellAt_one n g _ _
        (by omega) (by omega) (by omega) (by omega) (by omega)]
  norm_num

/-- On an `(n+3) × (n+3)` clamped grid, the far corner has no live
neighbours: its neighbour count is 0. -/
theorem corner_fill_count (n : Nat) (g : Nat) :
    _get_live_neighbor_count ⟨n + 3, n + 3, .fill, cornerGrid, g⟩ (n + 2) (n + 2) = 0 := by
  rw [ncount_eq_moore_sum]
  simp only [mooreOffsets, List.map_cons, List.map_nil, List.sum_cons, List.sum_nil]
  rw [corner_fill_cellAt n g _ _ (by omega), corner_fill_cellAt n g _ _ (by omega),
      corner_fill_cellAt n g _ _ (by omega), corner_fill_cellAt n g _ _ (by omega),
      corner_fill_cellAt n g _ _ (by omega), corner_fill_cellAt n g _ _ (by omega),
      corner_fill_cellAt n g _ _ (by omega), corner_fill_cellAt n g _ _ (by omega)]
  norm_num

/-- The horizontal blinker grid is binary. -/
theorem blinkerH_binary (r c : Nat) :
    ∀ x y, blinkerH r c x y = 0 ∨ blinkerH r c x y = 1 := by
  intro x y
  unfold blinkerH
  split
  · exact Or.inr rfl
  · exact Or.inl rfl

/-- The demo blinker engine is binary. -/
theorem blinkDemo_binary : Binary blinkDemo := blinkerH_binary 3 2

/-! ## Claim theorems -/

/-- C1: for every validly constructed engine (its grid binary, as holds for
every reachable state of the binary variants) and every cell, after one
`next_generation` the cell is alive iff (it was alive and its live-neighbour
count was 2 or 3) or (it was dead and its live-neighbour count was exactly 3),
the count being taken on the pre-step grid for every cell (the replacement
grid is built from the pre-step state, so no update influences another cell's
count within the step). -/
theorem C1_advance_follows_B3S23 (e : Engine) (hb : Binary e) (r c : Nat) :
    0 < (next_generation e).grid r c ↔
      ((0 < e.grid r c ∧
          (aliveNeighborCount e r c = 2 ∨ aliveNeighborCount e r c = 3)) ∨
        (e.grid r c = 0 ∧ aliveNeighborCount e r c = 3)) := by
  show 0 < nextCell e r c ↔ _
  simp only [nextCell]
  rw [ncount_eq_aliveCount e hb r c]
  rcases hb r c with h0 | h1
  · by_cases hn : aliveNeighborCount e r c = 3 <;> simp [h0, hn]
  · by_cases h2 : aliveNeighborCount e r c = 2 <;>
      by_cases h3 : aliveNeighborCount e r c = 3 <;> simp [h1, h2, h3]

/-- Witness for C1: the blinker demo engine at cell (2, 3), a birth. -/
theorem C1_witness :
    0 < (next_generation blinkDemo).grid 2 3 ↔
      ((0 < blinkDemo.grid 2 3 ∧
          (aliveNeighborCount blinkDemo 2 3 = 2 ∨ aliveNeighborCount blinkDemo 2 3 = 3)) ∨
        (blinkDemo.grid 2 3 = 0 ∧ aliveNeighborCount blinkDemo 2 3 = 3)) :=
  C1_advance_follows_B3S23 blinkDemo blinkDemo_binary 2 3

/-- C2 counterexample: construction with `height = 0 ≤ 0` does NOT fail — the
code performs no dimension validation anywhere and no `InvalidDimension` error
exists; `np.zeros((0, 5))` succeeds, so an engine with an empty grid is
returned. -/
theorem C2_counterexample :
    init 0 5 BoundaryMode.wrap =
      Except.ok { height := 0, width := 5, boundary := BoundaryMode.wrap,
                  grid := fun _ _ => 0, generation := 0 } := rfl

/-- C2 amended: construction validates nothing; it fails (with numpy's
`ValueError: negative dimensions are not allowed`, not an `InvalidDimension`)
exactly when height < 0 or width < 0, in which case no engine is produced;
every nonnegative pair of dimensions (including 0) succeeds with the all-dead
grid at generation 0. -/
theorem C2_amended_construction (h w : Int) (b : BoundaryMode) :
    (h < 0 ∨ w < 0 → init h w b = Except.error NumpyError.negativeDimensions) ∧
    (0 ≤ h → 0 ≤ w →
      init h w b =
        Except.ok { height := h.toNat, width := w.toNat, boundary := b,
                    grid := fun _ _ => 0, generation := 0 }) := by
  constructor
  · intro hneg
    unfold init
    rw [if_pos hneg]
  · intro h1 h2
    unfold init
    rw [if_neg (by omega)]

/-- Witness for C2's amended statement at dimensions -1×4 and 3×4. -/
theorem C2_witness :
    init (-1) 4 BoundaryMode.fill = Except.error NumpyError.negativeDimensions ∧
    init 3 4 BoundaryMode.fill =
      Except.ok { height := 3, width := 4, boundary := BoundaryMode.fill,
                  grid := fun _ _ => 0, generation := 0 } :=
  ⟨(C2_amended_construction (-1) 4 BoundaryMode.fill).1 (Or.inl (by decide)),
   (C2_amended_construction 3 4 BoundaryMode.fill).2 (by decide) (by decide)⟩

/-- C3: on a binary engine state the code's convolution against
`[[1,1,1],[1,0,1],[1,1,1]]` (boundary-resolved: clamped reads outside
`[0,height)×[0,width)` contribute 0, toroidal reads take row and column modulo
the dimensions) equals, at every cell, the number of the 8 Moore neighbours
that are alive (value ≥ 1), and every value lies in 0..8. -/
theorem C3_neighbor_counts_spec (e : Engine) (hb : Binary e) (r c : Nat) :
    _get_live_neighbor_count e r c = aliveNeighborCount e r c ∧
    _get_live_neighbor_count e r c ≤ 8 :=
  ⟨ncount_eq_aliveCount e hb r c, ncount_le_eight e hb r c⟩

/-- Witness for C3: the blinker demo engine at cell (3, 3). -/
theorem C3_witness :
    _get_live_neighbor_count blinkDemo 3 3 = aliveNeighborCount blinkDemo 3 3 ∧
    _get_live_neighbor_count blinkDemo 3 3 ≤ 8 :=
  C3_neighbor_counts_spec blinkDemo blinkDemo_binary 3 3

/-- C4 (spec-modelled, `LWSSAgingSimulation` being absent from the corpus): in
the aging variant one advance makes a surviving cell's value its previous
value + 1, a newly born cell's value exactly 1, and a dying or remaining-dead
cell's value 0. -/
theorem C4_aging_advance_spec (e : Engine) (r c : Nat) :
    (0 < e.grid r c →
      (aliveNeighborCount e r c = 2 ∨ aliveNeighborCount e r c = 3) →
      (agingNextGeneration e).grid r c = e.grid r c + 1) ∧
    (e.grid r c = 0 → aliveNeighborCount e r c = 3 →
      (agingNextGeneration e).grid r c = 1) ∧
    (0 < e.grid r c →
      ¬(aliveNeighborCount e r c = 2 ∨ aliveNeighborCount e r c = 3) →
      (agingNextGeneration e).grid r c = 0) ∧
    (e.grid r c = 0 → aliveNeighborCount e r c ≠ 3 →
      (agingNextGeneration e).grid r c = 0) := by
  refine ⟨fun h1 h2 => ?_, fun h1 h2 => ?_, fun h1 h2 => ?_, fun h1 h2 => ?_⟩ <;>
    simp only [agingNextGeneration]
  · rw [if_pos h1, if_pos h2]
  · rw [if_neg (by omega), if_pos h2]
  · rw [if_pos h1, if_neg h2]
  · rw [if_neg (by omega), if_neg h2]

/-- Witness for C4: the aging demo engine — the age-2 survivor at (3, 3)
becomes age 3; the isolated dead cell (0, 0) stays 0. -/
theorem C4_witness :
    (agingNextGeneration agingDemo).grid 3 3 = agingDemo.grid 3 3 + 1 ∧
    (agingNextGeneration agingDemo).grid 0 0 = 0 :=
  ⟨(C4_aging_advance_spec agingDemo 3 3).1 (by decide) (by decide),
   (C4_aging_advance_spec agingDemo 0 0).2.2.2 (by decide) (by decide)⟩

/-- C5: seeding sets every in-bounds target `(dr + rowOffset, dc + colOffset)`
to 1, silently ignores out-of-bounds targets (no error — the operation is
total — and no side effect), changes no cell that is not a target, and never
clears a live cell, so repeated seeds accumulate onto the same grid. -/
theorem C5_seed_spec (e : Engine) (pattern : List (Int × Int))
    (rowOffset colOffset : Int) :
    (∀ p ∈ pattern,
      0 ≤ p.1 + rowOffset → p.1 + rowOffset < (e.height : Int) →
      0 ≤ p.2 + colOffset → p.2 + colOffset < (e.width : Int) →
      (seed_pattern e pattern rowOffset colOffset).grid
        (p.1 + rowOffset).toNat (p.2 + colOffset).toNat = 1) ∧
    (∀ x y : Nat,
      (∀ p ∈ pattern,
        ¬((x : Int) = p.1 + rowOffset ∧ (y : Int) = p.2 + colOffset)) →
      (seed_pattern e pattern rowOffset colOffset).grid x y = e.grid x y) ∧
    (∀ x y : Nat, 0 < e.grid x y →
      0 < (seed_pattern e pattern rowOffset colOffset).grid x y) := by
  refine ⟨?_, ?_, ?_⟩
  · intro p hp h1 h2 h3 h4
    exact seedCells_hit e.height e.width e.grid pattern rowOffset colOffset p hp
      ⟨h1, h2, h3, h4⟩
  · intro x y hmiss
    exact seedCells_frame e.height e.width e.grid pattern rowOffset colOffset x y
      (fun p hp _ => hmiss p hp)
  · intro x y hpos
    show 0 < seedCells e.height e.width e.grid pattern rowOffset colOffset x y
    rcases seedCells_eq_or_one e.height e.width e.grid pattern rowOffset colOffset
        x y with h | h
    · rw [h]; exact hpos
    · rw [h]; exact Nat.one_pos

/-- Witness for C5: seeding the blinker demo with an in-bounds and an
out-of-bounds coordinate. -/
theorem C5_witness :
    (seed_pattern blinkDemo [((0 : Int), (0 : Int)), (10, 10)] 0 0).grid 0 0 = 1 ∧
    (seed_pattern blinkDemo [((0 : Int), (0 : Int)), (10, 10)] 0 0).grid 1 1 =
      blinkDemo.grid 1 1 ∧
    0 < (seed_pattern blinkDemo [((0 : Int), (0 : Int)), (10, 10)] 0 0).grid 3 2 :=
  ⟨(C5_seed_spec blinkDemo [(0, 0), (10, 10)] 0 0).1 (0, 0) (by decide)
      (by decide) (by decide) (by decide) (by decide),
   (C5_seed_spec blinkDemo [(0, 0), (10, 10)] 0 0).2.1 1 1 (by decide),
   (C5_seed_spec blinkDemo [(0, 0), (10, 10)] 0 0).2.2 3 2 (by decide)⟩

/-- C6: the dimensions never change (seeding, the binary advance, and the
aging advance all preserve them), a freshly constructed grid is binary, and
binarity is preserved by seeding and by the binary advance (so every cell
value stays in {0, 1}; values are nonnegative by type). -/
theorem C6_invariants (e : Engine) (pattern : List (Int × Int))
    (rowOffset colOffset : Int) :
    ((seed_pattern e pattern rowOffset colOffset).height = e.height ∧
     (seed_pattern e pattern rowOffset colOffset).width = e.width) ∧
    ((next_generation e).height = e.height ∧
     (next_generation e).width = e.width) ∧
    ((agingNextGeneration e).height = e.height ∧
     (agingNextGeneration e).width = e.width) ∧
    (∀ (h w : Int) (b : BoundaryMode) (e' : Engine),
      init h w b = Except.ok e' → Binary e') ∧
    (Binary e → Binary (seed_pattern e pattern rowOffset colOffset)) ∧
    Binary (next_generation e) := by
  refine ⟨⟨rfl, rfl⟩, ⟨rfl, rfl⟩, ⟨rfl, rfl⟩, ?_, ?_, ?_⟩
  · intro h w b e' hok
    unfold init at hok
    split at hok
    · cases hok
    · cases hok
      intro r c
      exact Or.inl rfl
  · intro hb x y
    show seedCells e.height e.width e.grid pattern rowOffset colOffset x y = 0 ∨
      seedCells e.height e.width e.grid pattern rowOffset colOffset x y = 1
    rcases seedCells_eq_or_one e.height e.width e.grid pattern rowOffset colOffset
        x y with h | h
    · rw [h]; exact hb x y
    · exact Or.inr h
  · intro r c
    show nextCell e r c = 0 ∨ nextCell e r c = 1
    simp only [nextCell]
    split
    · exact Or.inr rfl
    · exact Or.inl rfl

/-- Witness for C6 at the blinker demo engine. -/
theorem C6_witness :
    (seed_pattern blinkDemo [] 0 0).height = blinkDemo.height ∧
    Binary (seed_pattern blinkDemo [] 0 0) ∧
    Binary (next_generation blinkDemo) ∧
    Binary (⟨3, 4, BoundaryMode.wrap, fun _ _ => 0, 0⟩ : Engine) :=
  ⟨(C6_invariants blinkDemo [] 0 0).1.1,
   (C6_invariants blinkDemo [] 0 0).2.2.2.2.1 blinkDemo_binary,
   (C6_invariants blinkDemo [] 0 0).2.2.2.2.2,
   (C6_invariants blinkDemo [] 0 0).2.2.2.1 3 4 BoundaryMode.wrap _ rfl⟩

/-- C7: for every N ≥ 1, on an N×N grid whose only live cell is the corner
(0, 0), the neighbour counts under toroidal and clamped boundary modes differ
at cell (N-1, N-1). -/
theorem C7_boundary_divergence (N : Nat) (hN : 1 ≤ N) :
    _get_live_neighbor_count ⟨N, N, .wrap, cornerGrid, 0⟩ (N - 1) (N - 1) ≠
      _get_live_neighbor_count ⟨N, N, .fill, cornerGrid, 0⟩ (N - 1) (N - 1) := by
  match N, hN with
  | 1, _ => decide
  | 2, _ => decide
  | (n + 3), _ =>
      show _get_live_neighbor_count ⟨n + 3, n + 3, .wrap, cornerGrid, 0⟩
            (n + 2) (n + 2) ≠
          _get_live_neighbor_count ⟨n + 3, n + 3, .fill, cornerGrid, 0⟩
            (n + 2) (n + 2)
      rw [corner_wrap_count n 0, corner_fill_count n 0]
      omega

/-- Witness for C7 at N = 5. -/
theorem C7_witness :
    _get_live_neighbor_count ⟨5, 5, .wrap, cornerGrid, 0⟩ 4 4 ≠
      _get_live_neighbor_count ⟨5, 5, .fill, cornerGrid, 0⟩ 4 4 :=
  C7_boundary_divergence 5 (by decide)

/-- C8: a grid that is empty except for three collinear live cells at row r,
columns c..c+2, placed away from every edge, becomes after one advance exactly
the three cells at column c+1, rows r-1..r+1 (all others dead), and a second
advance restores the original configuration — under either boundary mode. -/
theorem C8_blinker_period_two (e : Engine) (r c : Nat)
    (hgrid : ∀ x y : Nat, x < e.height → y < e.width →
      e.grid x y = blinkerH r c x y)
    (hr1 : 2 ≤ r) (hr2 : r + 3 ≤ e.height) (hc1 : 2 ≤ c) (hc2 : c + 5 ≤ e.width) :
    (∀ x y : Nat, x < e.height → y < e.width →
      (next_generation e).grid x y = blinkerV r c x y) ∧
    (∀ x y : Nat, x < e.height → y < e.width →
      (next_generation (next_generation e)).grid x y = blinkerH r c x y) := by
  constructor
  · exact fun x y hx hy => blinkerH_step e r c hgrid hr1 hr2 hc1 hc2 x y hx hy
  · intro x y hx hy
    exact blinkerV_step (next_generation e) r c
      (fun a b ha hb => blinkerH_step e r c hgrid hr1 hr2 hc1 hc2 a b ha hb)
      hr1 hr2 hc1 hc2 x y hx hy

/-- Witness for C8 at the 6×7 toroidal blinker demo engine. -/
theorem C8_witness :
    (∀ x y : Nat, x < blinkDemo.height → y < blinkDemo.width →
      (next_generation blinkDemo).grid x y = blinkerV 3 2 x y) ∧
    (∀ x y : Nat, x < blinkDemo.height → y < blinkDemo.width →
      (next_generation (next_generation blinkDemo)).grid x y = blinkerH 3 2 x y) :=
  C8_blinker_period_two blinkDemo 3 2 (fun _ _ _ _ => rfl)
    (by decide) (by decide) (by decide) (by decide)

/-- C9: the generation counter is 0 at construction, increases by exactly 1 on
each advance, and is unchanged by seeding. -/
theorem C9_generation_counter :
    (∀ (h w : Int) (b : BoundaryMode) (e' : Engine),
      init h w b = Except.ok e' → e'.generation = 0) ∧
    (∀ e : Engine, (next_generation e).generation = e.generation + 1) ∧
    (∀ (e : Engine) (pattern : List (Int × Int)) (rowOffset colOffset : Int),
      (seed_pattern e pattern rowOffset colOffset).generation = e.generation) := by
  refine ⟨?_, fun _ => rfl, fun _ _ _ _ => rfl⟩
  intro h w b e' hok
  unfold init at hok
  split at hok
  · cases hok
  · cases hok
    rfl

/-- Witness for C9 at concrete engines. -/
theorem C9_witness :
    (⟨3, 4, BoundaryMode.wrap, fun _ _ => 0, 0⟩ : Engine).generation = 0 ∧
    (next_generation blinkDemo).generation = blinkDemo.generation + 1 ∧
    (seed_pattern blinkDemo [((0 : Int), (0 : Int))] 0 0).generation =
      blinkDemo.generation :=
  ⟨C9_generation_counter.1 3 4 BoundaryMode.wrap _ rfl,
   C9_generation_counter.2.1 blinkDemo,
   C9_generation_counter.2.2 blinkDemo [(0, 0)] 0 0⟩

/-- C10: a neighbour-counts call leaves the engine unchanged — the state after
the call is the state before, with identical grid contents and generation —
and the counts come back as a freshly computed array. -/
theorem C10_neighbor_counts_pure (e : Engine) (r c : Nat) :
    (neighborCountsCall e).2 = e ∧
    (neighborCountsCall e).2.grid r c = e.grid r c ∧
    (neighborCountsCall e).2.generation = e.generation ∧
    (neighborCountsCall e).1 r c = _get_live_neighbor_count e r c :=
  ⟨rfl, rfl, rfl, rfl⟩

end GameOfLife
